import Mathlib

/-!
# Base64 framed messaging over TCP and UDP: the codec and the frame handlers

A shallow embedding of `src/client.c` and `src/server.c`.

* Bytes and characters are natural numbers, the value of the byte read as
  `unsigned char` (0..255); a C string is the list of its bytes before the
  terminating zero.
* `size_t` is 64 bits wide and `uint32_t` 32 bits wide; their arithmetic is
  written with an explicit remainder.
* `malloc` is taken to succeed and the pointers handed to the codec are taken
  to be non-null, so the only `NULL` results are the ones for an empty input.
* A `while` loop is a function that recurses on a bound for the number of
  iterations still possible; the bound comes with a proof that it is large
  enough, so the function only ever stops where the loop condition is false.
* Socket input is a list of receive events (the value `recv`/`recvfrom`
  returned and the frame buffer after the call); what a handler does is the
  list of events it produces. Console output is kept only where the code
  branches on it.
-/

namespace Base64Comm

/-! ## Constants and the frame -/

/-- Character codes of a string literal. -/
def codes (s : String) : List Nat := s.toList.map Char.toNat

/-- The constant `#define MSG_LEN 1024`. -/
def MSG_LEN : Nat := 1024

/-- The constant `#define MAX_INPUT_LEN 768`, commented in the source with
"Since Base64 encoding expands size by ~4/3". -/
def MAX_INPUT_LEN : Nat := 768

/-- The string `#define BASE64_TABLE "ABC...xyz0123456789+/"`, as character codes. -/
def BASE64_TABLE : List Nat :=
  codes "ABCDEFGHIJKLMNOPQRSTUVWXYZabcdefghijklmnopqrstuvwxyz0123456789+/"

/-- The character `=`. -/
def PAD : Nat := 61

/-- The frame `typedef struct { int type; char content[MSG_LEN]; } Message;`
with `content` held as the C string it contains. -/
structure Message where
  type : Int
  content : List Nat
  deriving DecidableEq

/-- The size `sizeof(Message)`: a 4-byte `int` and `MSG_LEN` bytes of content. -/
def sizeof_Message : Int := 4 + 1024

/-- Conversion to `uint32_t`. -/
def u32 (x : Nat) : Nat := x % 4294967296

/-- Conversion to `size_t`. -/
def size_t (x : Int) : Nat := (x % 18446744073709551616).toNat

/-- Conversion of an `int` to `uint32_t`. -/
def u32_of_int (x : Int) : Nat := (x % 4294967296).toNat

/-- One call of `recv` or `recvfrom`: the byte count it returned and the frame
buffer after the call. -/
structure RecvEvent where
  bytes_received : Int
  msg : Message
  deriving DecidableEq

/-- The result of `decode_base64`. -/
inductive Decoded where
  /-- The function returned `NULL`. -/
  | null : Decoded
  /-- The function returned a buffer of `output_len + 1` bytes, all written. -/
  | buffer (bytes : List Nat) : Decoded
  /-- The run left what C defines: `char_index` was read outside its 256
  entries (a byte above 127 is a negative index where plain `char` is signed),
  or `output_len` wrapped around and the function wrote outside the buffer it
  allocated. -/
  | undefined : Decoded
  deriving DecidableEq

/-- What a handler or the client session does, in order. -/
inductive Event where
  /-- The receive call returned a count `<= 0` and the failure was logged. -/
  | recv_failed : Event
  /-- The handler called `decode_base64` on `content` and logged this result. -/
  | decoded (content : List Nat) (result : Decoded) : Event
  /-- A frame was written to the socket with `send` or `sendto`. -/
  | sent (m : Message) : Event
  /-- The handler logged "Requested termination". -/
  | termination_requested : Event
  /-- The client logged "Failed to encode message". -/
  | encode_failed : Event
  /-- The client logged "Received acknowledgment from server". -/
  | ack_received : Event
  /-- The client logged "Failed to receive acknowledgment from server". -/
  | ack_failed : Event
  /-- The socket was closed with `close`. -/
  | closed : Event
  deriving DecidableEq

/-- The frames a run wrote to the socket. -/
def sent_frames : List Event → List Message
  | [] => []
  | Event.sent m :: rest => m :: sent_frames rest
  | _ :: rest => sent_frames rest

/-- The contents a run handed to `decode_base64`. -/
def decode_calls : List Event → List (List Nat)
  | [] => []
  | Event.decoded c _ :: rest => c :: decode_calls rest
  | _ :: rest => decode_calls rest

/-- A buffer read as a null-terminated string, the way `printf("%s")` does. -/
def c_string (buf : List Nat) : List Nat := buf.takeWhile (fun b => b != 0)

namespace Client

/-! ## client.c -/

/-- The operand `i < input_len ? (unsigned char)input[i++] : 0`: the octet read
and the value of `i` afterwards. `i` moves only when a byte was read. -/
def next_octet (input : List Nat) (i : Nat) : Nat × Nat :=
  if i < input.length then (input.getD i 0 % 256, i + 1) else (0, i)

/-- The `while (i < input_len)` loop of `encode_base64`; `output` holds the
`j` characters written so far. -/
def encode_loop (input : List Nat) :
    (bound : Nat) → (i : Nat) → input.length - i ≤ bound → List Nat → List Nat
  | 0, _, _, output => output
  | bound + 1, i, hb, output =>
    if h : i < input.length then
      let a := next_octet input i
      let b := next_octet input a.2
      let c := next_octet input b.2
      let triple := u32 (u32 (u32 (a.1 <<< 16) + u32 (b.1 <<< 8)) + c.1)
      encode_loop input bound c.2
        (by
          show input.length - (next_octet input (next_octet input (next_octet input i).2).2).2
            ≤ bound
          have h1 : (next_octet input i).2 = i + 1 := by simp [next_octet, h]
          have h2 : ∀ k, k ≤ (next_octet input k).2 := by
            intro k; unfold next_octet; split <;> simp
          have h3 := h2 (next_octet input i).2
          have h4 := h2 (next_octet input (next_octet input i).2).2
          omega)
        (output ++
          [BASE64_TABLE.getD ((triple >>> 18) &&& 0x3F) 0,
           BASE64_TABLE.getD ((triple >>> 12) &&& 0x3F) 0,
           if c.2 > input.length + 1 then PAD else BASE64_TABLE.getD ((triple >>> 6) &&& 0x3F) 0,
           if c.2 > input.length then PAD else BASE64_TABLE.getD (triple &&& 0x3F) 0])
    else output

/-- The function `char *encode_base64(const char *input, size_t input_len)`: `none` is
`NULL`, `some s` the string returned. -/
def encode_base64 (input : List Nat) : Option (List Nat) :=
  if input.length = 0 then none
  else some (encode_loop input input.length 0 (by omega) [])

/-- The frame `send_message` builds and writes:
`strncpy(msg.content, message, MSG_LEN - 1); msg.content[MSG_LEN - 1] = 0`. -/
def send_message (message : List Nat) (message_type : Int) : Message :=
  { type := message_type, content := message.take (MSG_LEN - 1) }

/-- The function `int receive_ack(...)` on one receive event: the `recv` branch, the
`recvfrom` branch, then the test of the frame type. -/
def receive_ack (is_tcp : Bool) (ev : RecvEvent) : Int :=
  if is_tcp = true ∧ ev.bytes_received ≤ 0 then 0
  else if is_tcp = false ∧ ev.bytes_received ≤ 0 then 0
  else if ev.msg.type = 2 then 1
  else 0

/-- The end of one pass of the loop in `main`, after the DATA frame was sent:
the events and whether the loop is left (`break`). -/
def await_ack (is_tcp : Bool) (ev : RecvEvent) : List Event × Bool :=
  if receive_ack is_tcp ev ≠ 0 then ([Event.ack_received], false)
  else if is_tcp then ([Event.ack_failed], true)
  else ([Event.ack_failed], false)

/-- The string `"quit"`. -/
def quit : List Nat := codes "quit"

/-- The string `"TERMINATE"`. -/
def TERMINATE : List Nat := codes "TERMINATE"

/-- The `while (1)` loop of `main` and the `close` after it, on the lines read
from the console (newline removed) and the receive events of the socket. A run
that has used up its lines or its receive events is blocked in the call. -/
def main (is_tcp : Bool) : List (List Nat) → List RecvEvent → List Event
  | [], _ => []
  | input :: lines, recvs =>
    if input = quit then
      (if is_tcp then [Event.sent (send_message TERMINATE 3)] else []) ++ [Event.closed]
    else
      match encode_base64 input with
      | none => Event.encode_failed :: main is_tcp lines recvs
      | some encoded =>
        Event.sent (send_message encoded 1) ::
          match recvs with
          | [] => []
          | ev :: recvs =>
            if (await_ack is_tcp ev).2 then (await_ack is_tcp ev).1 ++ [Event.closed]
            else (await_ack is_tcp ev).1 ++ main is_tcp lines recvs

end Client

namespace Server

/-! ## server.c -/

/-- The table `char_index` after `memset(char_index, -1, sizeof(char_index))`
and the loop `char_index[(int)BASE64_TABLE[i]] = i` for `i` from 0 to 63. -/
def char_index : List Int :=
  (List.range 64).foldl (fun tbl i => tbl.set (BASE64_TABLE.getD i 0) (i : Int))
    (List.replicate 256 (-1))

/-- The read `char_index[(int)c]` assigned to a `uint32_t`: `none` where the
index is outside the table for a signed `char`. -/
def table_read (c : Nat) : Option Nat :=
  if c < 128 then some (u32_of_int (char_index.getD c (-1))) else none

/-- The operand `input[i] == '=' ? 0 : char_index[(int)input[i]]` of
`sextet_a` and `sextet_b`. At `i = input_len` the byte read is the terminator. -/
def sextet (input : List Nat) (i : Nat) : Option Nat :=
  if input.getD i 0 = PAD then some 0 else table_read (input.getD i 0)

/-- The operand `(i < input_len && input[i] != '=') ? char_index[(int)input[i]] : 0`
of `sextet_c` and `sextet_d`. -/
def sextet_checked (input : List Nat) (i : Nat) : Option Nat :=
  if i < input.length ∧ input.getD i 0 ≠ PAD then table_read (input.getD i 0) else some 0

/-- The statement `if (j < output_len) output[j++] = b`, with `j` the number of
bytes in `output`. -/
def put (output_len : Nat) (output : List Nat) (b : Nat) : List Nat :=
  if output.length < output_len then output ++ [b] else output

/-- The `while (i < input_len)` loop of `decode_base64` followed by
`output[output_len] = 0; return output`. -/
def decode_loop (input : List Nat) (output_len : Nat) :
    (bound : Nat) → (i : Nat) → input.length - i ≤ bound → List Nat → Decoded
  | 0, _, _, output =>
    if output.length = output_len then Decoded.buffer (output ++ [0]) else Decoded.undefined
  | bound + 1, i, hb, output =>
    if i < input.length then
      match sextet input i, sextet input (i + 1),
          sextet_checked input (i + 2), sextet_checked input (i + 3) with
      | some sextet_a, some sextet_b, some sextet_c, some sextet_d =>
        let triple :=
          u32 (u32 (u32 (u32 (sextet_a <<< 18) + u32 (sextet_b <<< 12)) + u32 (sextet_c <<< 6))
            + sextet_d)
        decode_loop input output_len bound (i + 4) (by omega)
          (put output_len
            (put output_len
              (put output_len output ((triple >>> 16) &&& 0xFF))
              ((triple >>> 8) &&& 0xFF))
            (triple &&& 0xFF))
      | _, _, _, _ => Decoded.undefined
    else if output.length = output_len then Decoded.buffer (output ++ [0])
    else Decoded.undefined

/-- The variable `padding` of `decode_base64`. -/
def padding (input : List Nat) : Nat :=
  (if input.length > 0 ∧ input.getD (input.length - 1) 0 = PAD then 1 else 0) +
  (if input.length > 1 ∧ input.getD (input.length - 2) 0 = PAD then 1 else 0)

/-- The variable `output_len` of `decode_base64`:
`size_t output_len = (input_len * 3) / 4 - padding`. -/
def output_len (input : List Nat) : Nat :=
  size_t (((size_t ((input.length * 3 : Nat) : Int) / 4 : Nat) : Int) - (padding input : Int))

/-- The function `char *decode_base64(const char *input)` on the string `input`. -/
def decode_base64 (input : List Nat) : Decoded :=
  if input.length = 0 then Decoded.null
  else decode_loop input (output_len input) input.length 0 (by omega) []

/-- The ACK frame both handlers build: `ack_msg.type = 2;
strcpy(ack_msg.content, "ACK")`. -/
def ack_msg : Message := { type := 2, content := codes "ACK" }

/-- One pass of the `while (1)` loop of `handle_tcp_client`: the events and
whether the loop is left (`break`). -/
def tcp_iteration (ev : RecvEvent) : List Event × Bool :=
  if ev.bytes_received ≤ 0 then ([Event.recv_failed], true)
  else if ev.msg.type = 1 then
    ([Event.decoded ev.msg.content (decode_base64 ev.msg.content), Event.sent ack_msg], false)
  else if ev.msg.type = 3 then ([Event.termination_requested], true)
  else ([], false)

/-- The function `void *handle_tcp_client(void *arg)`: the loop and the `close` after it. A
run that has used up its receive events is blocked in `recv`. -/
def handle_tcp_client : List RecvEvent → List Event
  | [] => []
  | ev :: rest =>
    if (tcp_iteration ev).2 then (tcp_iteration ev).1 ++ [Event.closed]
    else (tcp_iteration ev).1 ++ handle_tcp_client rest

/-- The function
`void handle_udp_message(int udp_socket, struct sockaddr_in *client_addr)`
on the datagram it receives. -/
def handle_udp_message (ev : RecvEvent) : List Event :=
  if ev.bytes_received ≤ 0 then [Event.recv_failed]
  else if ev.msg.type = 1 then
    [Event.decoded ev.msg.content (decode_base64 ev.msg.content), Event.sent ack_msg]
  else []

end Server

open Client Server

/-! ## The reference encoding -/

/-- The Base64 alphabet of RFC 4648, which the specification names as
`A-Z a-z 0-9 + /`: the character for a 6-bit value. -/
def rfc_alphabet (v : Nat) : Nat :=
  if v < 26 then 65 + v
  else if v < 52 then 97 + (v - 26)
  else if v < 62 then 48 + (v - 52)
  else if v = 62 then 43
  else 47

/-- The Base64 encoding of RFC 4648 as the specification describes it: every
three bytes give four characters of the alphabet, and a last group of one or
two bytes is filled with zero bits and right-padded with `=` to four
characters. This is the reference `decode_base64` is compared with; it is not
taken from `client.c`. -/
def rfc4648_encode : List Nat → List Nat
  | [] => []
  | [a] => [rfc_alphabet (a / 4), rfc_alphabet (a % 4 * 16), PAD, PAD]
  | [a, b] =>
    [rfc_alphabet (a / 4), rfc_alphabet (a % 4 * 16 + b / 16), rfc_alphabet (b % 16 * 4), PAD]
  | a :: b :: c :: rest =>
    rfc_alphabet (a / 4) :: rfc_alphabet (a % 4 * 16 + b / 16) ::
      rfc_alphabet (b % 16 * 4 + c / 64) :: rfc_alphabet (c % 64) :: rfc4648_encode rest

/-- A byte sequence followed by the zero bytes that bring its length to a
multiple of three: the octets `encode_base64` works on, since it reads 0 for
an octet past the end of its input. -/
def zero_fill (s : List Nat) : List Nat := s ++ List.replicate ((3 - s.length % 3) % 3) 0

/-! ## Lemmas -/

/-! ### The alphabet table and the bit arithmetic -/

theorem table_eq_alphabet : ∀ v, v < 64 → BASE64_TABLE.getD v 0 = rfc_alphabet v := by decide

theorem table_read_alphabet : ∀ v, v < 64 → table_read (rfc_alphabet v) = some v := by decide

theorem alphabet_ne_pad : ∀ v, v < 64 → rfc_alphabet v ≠ PAD := by decide

theorem and_63 (x : Nat) : x &&& 63 = x % 64 := Nat.and_pow_two_sub_one_eq_mod x 6
theorem and_255 (x : Nat) : x &&& 255 = x % 256 := Nat.and_pow_two_sub_one_eq_mod x 8

theorem group_indices (a b c : Nat) (ha : a < 256) (hb : b < 256) (hc : c < 256) :
    let triple := u32 (u32 (u32 (a <<< 16) + u32 (b <<< 8)) + c)
    (triple >>> 18) &&& 0x3F = a / 4 ∧ (triple >>> 12) &&& 0x3F = a % 4 * 16 + b / 16 ∧
    (triple >>> 6) &&& 0x3F = b % 16 * 4 + c / 64 ∧ triple &&& 0x3F = c % 64 := by
  simp only [u32, Nat.shiftLeft_eq, Nat.shiftRight_eq_div_pow, and_63]
  omega

/-! ### The loop of `encode_base64` -/

theorem next_octet_lt (input : List Nat) (i : Nat) (h : i < input.length) :
    next_octet input i = (input.getD i 0 % 256, i + 1) := by
  simp [next_octet, h]

theorem next_octet_ge (input : List Nat) (i : Nat) (h : input.length ≤ i) :
    next_octet input i = (0, i) := by
  simp [next_octet, Nat.not_lt.mpr h]

theorem getD_append_at (pre suf : List Nat) (k : Nat) :
    (pre ++ suf).getD (pre.length + k) 0 = suf.getD k 0 := by
  rw [List.getD_append_right _ _ _ _ (by omega)]; simp

theorem zero_fill_cons3 (a b c : Nat) (rest : List Nat) :
    zero_fill (a :: b :: c :: rest) = a :: b :: c :: zero_fill rest := by
  have h : (3 - (rest.length + 1 + 1 + 1) % 3) % 3 = (3 - rest.length % 3) % 3 := by omega
  simp [zero_fill, h]

theorem getD_split (input pre suf : List Nat) (k i x : Nat) (hin : input = pre ++ suf)
    (hi : i = pre.length + k) (hx : suf[k]? = some x) : input.getD i 0 = x := by
  rw [hin, hi, getD_append_at, List.getD_eq_getElem?_getD, hx]; rfl

theorem next_octet_at (input pre suf : List Nat) (k i x : Nat) (hin : input = pre ++ suf)
    (hi : i = pre.length + k) (hx : suf[k]? = some x) (hlt : x < 256) :
    next_octet input i = (x, i + 1) := by
  have hk : k < suf.length := by
    rcases Nat.lt_or_ge k suf.length with h | h
    · exact h
    · rw [List.getElem?_eq_none h] at hx; cases hx
  rw [next_octet_lt _ _ (by simp [hin, hi]; omega), getD_split input pre suf k i x hin hi hx,
    Nat.mod_eq_of_lt hlt]

theorem encode_loop_exit (input : List Nat) (bound i : Nat) (hb : input.length - i ≤ bound)
    (output : List Nat) (h : input.length ≤ i) : encode_loop input bound i hb output = output := by
  cases bound with
  | zero => simp [encode_loop]
  | succ n => simp [encode_loop, Nat.not_lt.mpr h]

theorem table_group (a b c : Nat) (ha : a < 256) (hb : b < 256) (hc : c < 256) :
    let triple := u32 (u32 (u32 (a <<< 16) + u32 (b <<< 8)) + c)
    BASE64_TABLE.getD ((triple >>> 18) &&& 0x3F) 0 = rfc_alphabet (a / 4) ∧
    BASE64_TABLE.getD ((triple >>> 12) &&& 0x3F) 0 = rfc_alphabet (a % 4 * 16 + b / 16) ∧
    BASE64_TABLE.getD ((triple >>> 6) &&& 0x3F) 0 = rfc_alphabet (b % 16 * 4 + c / 64) ∧
    BASE64_TABLE.getD (triple &&& 0x3F) 0 = rfc_alphabet (c % 64) := by
  obtain ⟨g1, g2, g3, g4⟩ := group_indices a b c ha hb hc
  intro triple
  refine ⟨?_, ?_, ?_, ?_⟩
  · rw [g1]; exact table_eq_alphabet _ (by omega)
  · rw [g2]; exact table_eq_alphabet _ (by omega)
  · rw [g3]; exact table_eq_alphabet _ (by omega)
  · rw [g4]; exact table_eq_alphabet _ (by omega)

/-- The loop of `encode_base64`, started at the end of `pre` with `s` left to
read, appends the RFC 4648 encoding of `s` filled up with zero bytes: the `=`
branches are never taken. -/
theorem encode_loop_eq (s : List Nat) :
    ∀ (input pre : List Nat) (bound i : Nat) (hb : input.length - i ≤ bound) (output : List Nat),
      input = pre ++ s → i = pre.length → (∀ x ∈ s, x < 256) →
      encode_loop input bound i hb output = output ++ rfc4648_encode (zero_fill s) := by
  induction s using rfc4648_encode.induct with
  | case1 =>
    intro input pre bound i hb output hin hi _
    rw [encode_loop_exit _ _ _ _ _ (by simp [hin, hi])]
    simp [zero_fill, rfc4648_encode]
  | case2 a =>
    intro input pre bound i hb output hin hi hs
    have ha : a < 256 := hs a (by simp)
    have hlen : input.length = i + 1 := by simp [hin, hi]
    cases bound with
    | zero => omega
    | succ n =>
      have e1 : next_octet input i = (a, i + 1) :=
        next_octet_at input pre _ 0 i a hin (by omega) rfl ha
      have e2 : next_octet input (i + 1) = (0, i + 1) := next_octet_ge _ _ (by omega)
      obtain ⟨g1, g2, g3, g4⟩ := table_group a 0 0 ha (by omega) (by omega)
      rw [encode_loop, dif_pos (by omega)]
      simp only [e1, e2]
      rw [encode_loop_exit _ _ _ _ _ (by omega), g1, g2, g3, g4,
        if_neg (by omega), if_neg (by omega)]
      simp [zero_fill, rfc4648_encode]
  | case3 a b =>
    intro input pre bound i hb output hin hi hs
    have ha : a < 256 := hs a (by simp)
    have hb2 : b < 256 := hs b (by simp)
    have hlen : input.length = i + 2 := by simp [hin, hi]
    cases bound with
    | zero => omega
    | succ n =>
      have e1 : next_octet input i = (a, i + 1) :=
        next_octet_at input pre _ 0 i a hin (by omega) rfl ha
      have e2 : next_octet input (i + 1) = (b, i + 1 + 1) :=
        next_octet_at input pre _ 1 (i + 1) b hin (by omega) rfl hb2
      have e3 : next_octet input (i + 1 + 1) = (0, i + 1 + 1) := next_octet_ge _ _ (by omega)
      obtain ⟨g1, g2, g3, g4⟩ := table_group a b 0 ha hb2 (by omega)
      rw [encode_loop, dif_pos (by omega)]
      simp only [e1, e2, e3]
      rw [encode_loop_exit _ _ _ _ _ (by omega), g1, g2, g3, g4,
        if_neg (by omega), if_neg (by omega)]
      simp [zero_fill, rfc4648_encode]
  | case4 a b c rest ih =>
    intro input pre bound i hb output hin hi hs
    have ha : a < 256 := hs a (by simp)
    have hb2 : b < 256 := hs b (by simp)
    have hc : c < 256 := hs c (by simp)
    have hlen : input.length = i + 3 + rest.length := by simp [hin, hi]; omega
    cases bound with
    | zero => omega
    | succ n =>
      have e1 : next_octet input i = (a, i + 1) :=
        next_octet_at input pre _ 0 i a hin (by omega) rfl ha
      have e2 : next_octet input (i + 1) = (b, i + 1 + 1) :=
        next_octet_at input pre _ 1 (i + 1) b hin (by omega) rfl hb2
      have e3 : next_octet input (i + 1 + 1) = (c, i + 1 + 1 + 1) :=
        next_octet_at input pre _ 2 (i + 1 + 1) c hin (by omega) (by simp) hc
      obtain ⟨g1, g2, g3, g4⟩ := table_group a b c ha hb2 hc
      rw [encode_loop, dif_pos (by omega)]
      simp only [e1, e2, e3]
      rw [ih input (pre ++ [a, b, c]) n _ _ _ (by simp [hin]) (by simp [hi])
        (fun x hx => hs x (by simp [hx])), g1, g2, g3, g4, if_neg (by omega), if_neg (by omega),
        zero_fill_cons3]
      simp [rfc4648_encode]

/-- What `encode_base64` returns on a non-empty input. -/
theorem encode_base64_eq (s : List Nat) (hne : s ≠ []) (hs : ∀ x ∈ s, x < 256) :
    encode_base64 s = some (rfc4648_encode (zero_fill s)) := by
  have hlen : s.length ≠ 0 := by simpa using hne
  simp only [encode_base64, if_neg hlen]
  rw [encode_loop_eq s s [] s.length 0 _ [] (by simp) (by simp) hs]
  simp

/-! ### The loop of `decode_base64` -/

theorem decode_loop_exit (input : List Nat) (L bound i : Nat) (hb : input.length - i ≤ bound)
    (output : List Nat) (h : input.length ≤ i) :
    decode_loop input L bound i hb output =
      if output.length = L then Decoded.buffer (output ++ [0]) else Decoded.undefined := by
  cases bound with
  | zero => simp [decode_loop]
  | succ n => simp [decode_loop, Nat.not_lt.mpr h]

theorem decode_loop_step (input : List Nat) (L n i : Nat) (hb : input.length - i ≤ n + 1)
    (output : List Nat) (h : i < input.length) (a b c d : Nat)
    (ha : sextet input i = some a) (hb2 : sextet input (i + 1) = some b)
    (hc : sextet_checked input (i + 2) = some c) (hd : sextet_checked input (i + 3) = some d) :
    decode_loop input L (n + 1) i hb output =
      decode_loop input L n (i + 4) (by omega)
        (put L (put L (put L output
          ((u32 (u32 (u32 (u32 (a <<< 18) + u32 (b <<< 12)) + u32 (c <<< 6)) + d) >>> 16) &&& 0xFF))
          ((u32 (u32 (u32 (u32 (a <<< 18) + u32 (b <<< 12)) + u32 (c <<< 6)) + d) >>> 8) &&& 0xFF))
          (u32 (u32 (u32 (u32 (a <<< 18) + u32 (b <<< 12)) + u32 (c <<< 6)) + d) &&& 0xFF)) := by
  rw [decode_loop, if_pos h]
  simp only [ha, hb2, hc, hd]

theorem sextet_alphabet (input : List Nat) (i v : Nat) (hv : v < 64)
    (h : input.getD i 0 = rfc_alphabet v) : sextet input i = some v := by
  simp only [sextet, h, if_neg (alphabet_ne_pad v hv), table_read_alphabet v hv]

theorem sextet_checked_alphabet (input : List Nat) (i v : Nat) (hv : v < 64)
    (hi : i < input.length) (h : input.getD i 0 = rfc_alphabet v) :
    sextet_checked input i = some v := by
  simp only [sextet_checked, h, if_pos (And.intro hi (alphabet_ne_pad v hv)),
    table_read_alphabet v hv]

theorem sextet_checked_pad (input : List Nat) (i : Nat) (h : input.getD i 0 = PAD) :
    sextet_checked input i = some 0 := by
  unfold sextet_checked
  rw [if_neg]
  rintro ⟨_, h2⟩
  exact h2 h

theorem decode_bytes (v0 v1 v2 v3 : Nat) (h0 : v0 < 64) (h1 : v1 < 64) (h2 : v2 < 64)
    (h3 : v3 < 64) :
    let triple := u32 (u32 (u32 (u32 (v0 <<< 18) + u32 (v1 <<< 12)) + u32 (v2 <<< 6)) + v3)
    (triple >>> 16) &&& 0xFF = v0 * 4 + v1 / 16 ∧
    (triple >>> 8) &&& 0xFF = v1 % 16 * 16 + v2 / 4 ∧
    triple &&& 0xFF = v2 % 4 * 64 + v3 := by
  simp only [u32, Nat.shiftLeft_eq, Nat.shiftRight_eq_div_pow, and_255]
  omega

theorem put_lt (L : Nat) (output : List Nat) (b : Nat) (h : output.length < L) :
    put L output b = output ++ [b] := by simp [put, h]

theorem put_ge (L : Nat) (output : List Nat) (b : Nat) (h : L ≤ output.length) :
    put L output b = output := by simp [put, Nat.not_lt.mpr h]

theorem put_one (L : Nat) (output : List Nat) (x y z : Nat) (h : output.length + 1 = L) :
    put L (put L (put L output x) y) z = output ++ [x] := by
  rw [put_lt L output x (by omega), put_ge L (output ++ [x]) y (by simp; omega),
    put_ge L (output ++ [x]) z (by simp; omega)]

theorem put_two (L : Nat) (output : List Nat) (x y z : Nat) (h : output.length + 2 = L) :
    put L (put L (put L output x) y) z = output ++ [x, y] := by
  rw [put_lt L output x (by omega), put_lt L (output ++ [x]) y (by simp; omega),
    put_ge L (output ++ [x] ++ [y]) z (by simp; omega)]
  simp

theorem put_three (L : Nat) (output : List Nat) (x y z : Nat) (h : output.length + 3 ≤ L) :
    put L (put L (put L output x) y) z = output ++ [x, y, z] := by
  rw [put_lt L output x (by omega), put_lt L (output ++ [x]) y (by simp; omega),
    put_lt L (output ++ [x] ++ [y]) z (by simp; omega)]
  simp

/-- The loop of `decode_base64`, started at the end of `pre` with the RFC 4648
encoding of `s` left to read and room for exactly the bytes of `s`, appends `s`
and the terminator. -/
theorem decode_loop_rfc (s : List Nat) :
    ∀ (input pre : List Nat) (L bound i : Nat) (hb : input.length - i ≤ bound)
      (output : List Nat),
      input = pre ++ rfc4648_encode s → i = pre.length → (∀ x ∈ s, x < 256) →
      output.length + s.length = L →
      decode_loop input L bound i hb output = Decoded.buffer (output ++ s ++ [0]) := by
  induction s using rfc4648_encode.induct with
  | case1 =>
    intro input pre L bound i hb output hin hi _ hL
    rw [decode_loop_exit _ _ _ _ _ _ (by simp [hin, hi, rfc4648_encode])]
    simp at hL
    simp [hL]
  | case2 a =>
    intro input pre L bound i hb output hin hi hs hL
    have ha : a < 256 := hs a (by simp)
    simp only [rfc4648_encode] at hin
    have hlen : input.length = i + 4 := by simp [hin, hi]
    simp at hL
    cases bound with
    | zero => omega
    | succ n =>
      obtain ⟨d1, -, -⟩ := decode_bytes (a / 4) (a % 4 * 16) 0 0
        (by omega) (by omega) (by omega) (by omega)
      rw [show a / 4 * 4 + a % 4 * 16 / 16 = a by omega] at d1
      rw [decode_loop_step input L n i hb output (by omega) (a / 4) (a % 4 * 16) 0 0
        (sextet_alphabet _ _ _ (by omega) (getD_split input pre _ 0 i _ hin (by omega) rfl))
        (sextet_alphabet _ _ _ (by omega) (getD_split input pre _ 1 (i + 1) _ hin (by omega) rfl))
        (sextet_checked_pad _ _ (getD_split input pre _ 2 (i + 2) _ hin (by omega) (by simp)))
        (sextet_checked_pad _ _ (getD_split input pre _ 3 (i + 3) _ hin (by omega) (by simp)))]
      rw [put_one _ _ _ _ _ hL, d1, decode_loop_exit _ _ _ _ _ _ (by omega)]
      simp [← hL]
  | case3 a b =>
    intro input pre L bound i hb output hin hi hs hL
    have ha : a < 256 := hs a (by simp)
    have hb2 : b < 256 := hs b (by simp)
    simp only [rfc4648_encode] at hin
    have hlen : input.length = i + 4 := by simp [hin, hi]
    simp at hL
    cases bound with
    | zero => omega
    | succ n =>
      obtain ⟨d1, d2, -⟩ := decode_bytes (a / 4) (a % 4 * 16 + b / 16) (b % 16 * 4) 0
        (by omega) (by omega) (by omega) (by omega)
      rw [show a / 4 * 4 + (a % 4 * 16 + b / 16) / 16 = a by omega] at d1
      rw [show (a % 4 * 16 + b / 16) % 16 * 16 + b % 16 * 4 / 4 = b by omega] at d2
      rw [decode_loop_step input L n i hb output (by omega)
        (a / 4) (a % 4 * 16 + b / 16) (b % 16 * 4) 0
        (sextet_alphabet _ _ _ (by omega) (getD_split input pre _ 0 i _ hin (by omega) rfl))
        (sextet_alphabet _ _ _ (by omega) (getD_split input pre _ 1 (i + 1) _ hin (by omega) rfl))
        (sextet_checked_alphabet _ _ _ (by omega) (by omega)
          (getD_split input pre _ 2 (i + 2) _ hin (by omega) (by simp)))
        (sextet_checked_pad _ _ (getD_split input pre _ 3 (i + 3) _ hin (by omega) (by simp)))]
      rw [put_two _ _ _ _ _ hL, d1, d2, decode_loop_exit _ _ _ _ _ _ (by omega)]
      simp [← hL]
  | case4 a b c rest ih =>
    intro input pre L bound i hb output hin hi hs hL
    have ha : a < 256 := hs a (by simp)
    have hb2 : b < 256 := hs b (by simp)
    have hc : c < 256 := hs c (by simp)
    simp only [rfc4648_encode] at hin
    have hlen : input.length = i + 4 + (rfc4648_encode rest).length := by
      simp [hin, hi]; omega
    simp at hL
    cases bound with
    | zero => omega
    | succ n =>
      obtain ⟨d1, d2, d3⟩ := decode_bytes (a / 4) (a % 4 * 16 + b / 16) (b % 16 * 4 + c / 64)
        (c % 64) (by omega) (by omega) (by omega) (by omega)
      rw [show a / 4 * 4 + (a % 4 * 16 + b / 16) / 16 = a by omega] at d1
      rw [show (a % 4 * 16 + b / 16) % 16 * 16 + (b % 16 * 4 + c / 64) / 4 = b by omega] at d2
      rw [show (b % 16 * 4 + c / 64) % 4 * 64 + c % 64 = c by omega] at d3
      rw [decode_loop_step input L n i hb output (by omega)
        (a / 4) (a % 4 * 16 + b / 16) (b % 16 * 4 + c / 64) (c % 64)
        (sextet_alphabet _ _ _ (by omega) (getD_split input pre _ 0 i _ hin (by omega) rfl))
        (sextet_alphabet _ _ _ (by omega) (getD_split input pre _ 1 (i + 1) _ hin (by omega) rfl))
        (sextet_checked_alphabet _ _ _ (by omega) (by omega)
          (getD_split input pre _ 2 (i + 2) _ hin (by omega) (by simp)))
        (sextet_checked_alphabet _ _ _ (by omega) (by omega)
          (getD_split input pre _ 3 (i + 3) _ hin (by omega) (by simp)))]
      rw [put_three _ _ _ _ _ (by omega), d1, d2, d3]
      rw [ih input (pre ++ [rfc_alphabet (a / 4), rfc_alphabet (a % 4 * 16 + b / 16),
          rfc_alphabet (b % 16 * 4 + c / 64), rfc_alphabet (c % 64)]) L n (i + 4) _ _
        (by simp [hin]) (by simp [hi]) (fun x hx => hs x (by simp [hx])) (by simp; omega)]
      simp
/-! ### Lengths, padding and `output_len` -/

theorem size_t_of_nat (m : Nat) (h : m < 18446744073709551616) : size_t (m : Int) = m := by
  unfold size_t
  rw [Int.emod_eq_of_lt (by omega) (by omega)]
  simp

theorem size_t_sub (m p : Nat) (hp : p ≤ m) (h : m < 18446744073709551616) :
    size_t ((m : Int) - (p : Int)) = m - p := by
  unfold size_t
  rw [Int.emod_eq_of_lt (by omega) (by omega)]
  omega

theorem rfc4648_length (s : List Nat) : (rfc4648_encode s).length = 4 * ((s.length + 2) / 3) := by
  induction s using rfc4648_encode.induct with
  | case1 => simp [rfc4648_encode]
  | case2 a => simp [rfc4648_encode]
  | case3 a b => simp [rfc4648_encode]
  | case4 a b c rest ih =>
    simp only [rfc4648_encode, List.length_cons, ih]
    omega

theorem zero_fill_length (s : List Nat) : (zero_fill s).length = 3 * ((s.length + 2) / 3) := by
  simp only [zero_fill, List.length_append, List.length_replicate]
  omega

theorem rfc4648_tail (s : List Nat) (hne : s ≠ []) (hs : ∀ x ∈ s, x < 256) :
    ∃ front c d, rfc4648_encode s = front ++ [c, d] ∧
      (c = PAD ↔ s.length % 3 = 1) ∧ (d = PAD ↔ s.length % 3 ≠ 0) := by
  induction s using rfc4648_encode.induct with
  | case1 => exact absurd rfl hne
  | case2 a =>
    exact ⟨[rfc_alphabet (a / 4), rfc_alphabet (a % 4 * 16)], PAD, PAD, by simp [rfc4648_encode]⟩
  | case3 a b =>
    have hb : b < 256 := hs b (by simp)
    refine ⟨[rfc_alphabet (a / 4), rfc_alphabet (a % 4 * 16 + b / 16)],
      rfc_alphabet (b % 16 * 4), PAD, by simp [rfc4648_encode], ?_, by simp⟩
    simp [alphabet_ne_pad (b % 16 * 4) (by omega)]
  | case4 a b c rest ih =>
    have hb : b < 256 := hs b (by simp)
    have hc : c < 256 := hs c (by simp)
    by_cases hr : rest = []
    · subst hr
      refine ⟨[rfc_alphabet (a / 4), rfc_alphabet (a % 4 * 16 + b / 16)],
        rfc_alphabet (b % 16 * 4 + c / 64), rfc_alphabet (c % 64), by simp [rfc4648_encode], ?_, ?_⟩
      · simp [alphabet_ne_pad (b % 16 * 4 + c / 64) (by omega)]
      · simp [alphabet_ne_pad (c % 64) (by omega)]
    · obtain ⟨front, x, y, he, hx, hy⟩ := ih hr (fun x hx => hs x (by simp [hx]))
      refine ⟨rfc_alphabet (a / 4) :: rfc_alphabet (a % 4 * 16 + b / 16) ::
        rfc_alphabet (b % 16 * 4 + c / 64) :: rfc_alphabet (c % 64) :: front, x, y,
        by simp [rfc4648_encode, he], ?_, ?_⟩
      · rw [hx]; simp only [List.length_cons]; omega
      · rw [hy]; simp only [List.length_cons]; omega

theorem padding_tail (front : List Nat) (c d : Nat) :
    padding (front ++ [c, d]) = (if d = PAD then 1 else 0) + (if c = PAD then 1 else 0) := by
  have h1 : (front ++ [c, d]).getD ((front ++ [c, d]).length - 1) 0 = d :=
    getD_split _ front [c, d] 1 _ d rfl (by simp) rfl
  have h2 : (front ++ [c, d]).getD ((front ++ [c, d]).length - 2) 0 = c :=
    getD_split _ front [c, d] 0 _ c rfl (by simp) rfl
  unfold padding
  rw [h1, h2]
  simp


theorem output_len_rfc (s : List Nat) (hne : s ≠ []) (hs : ∀ x ∈ s, x < 256)
    (hlen : s.length < 2 ^ 61) : output_len (rfc4648_encode s) = s.length := by
  obtain ⟨front, c, d, he, hc, hd⟩ := rfc4648_tail s hne hs
  have hl := rfc4648_length s
  have hpos : 0 < s.length := List.length_pos.mpr hne
  have hlen2 : s.length < 2305843009213693952 := by simpa using hlen
  have hp : padding (rfc4648_encode s) = (3 - s.length % 3) % 3 := by
    rw [he, padding_tail]
    by_cases h1 : c = PAD <;> by_cases h2 : d = PAD <;> simp only [h1, h2, if_true, if_false] <;>
      simp only [h1, h2, true_iff, false_iff] at hc hd <;> omega
  unfold output_len
  rw [hp, hl]
  have e1 : size_t ((4 * ((s.length + 2) / 3) * 3 : Nat) : Int) = 4 * ((s.length + 2) / 3) * 3 :=
    size_t_of_nat _ (by omega)
  rw [e1, size_t_sub _ _ (by omega) (by omega)]
  omega
/-- The function `decode_base64` on the RFC 4648 encoding of `s`. -/
theorem decode_rfc4648 (s : List Nat) (hne : s ≠ []) (hs : ∀ x ∈ s, x < 256)
    (hlen : s.length < 2 ^ 61) :
    decode_base64 (rfc4648_encode s) = Decoded.buffer (s ++ [0]) := by
  have hl := rfc4648_length s
  have hpos : 0 < s.length := List.length_pos.mpr hne
  unfold decode_base64
  rw [if_neg (by omega), output_len_rfc s hne hs hlen]
  rw [decode_loop_rfc s (rfc4648_encode s) [] s.length _ 0 _ [] (by simp) (by simp) hs (by simp)]
  simp


theorem encode_length (s : List Nat) (hne : s ≠ []) (hs : ∀ x ∈ s, x < 256) :
    ∃ e, encode_base64 s = some e ∧ e.length = 4 * ((s.length + 2) / 3) := by
  refine ⟨_, encode_base64_eq s hne hs, ?_⟩
  rw [rfc4648_length, zero_fill_length]
  omega

theorem zero_fill_bytes (s : List Nat) (hs : ∀ x ∈ s, x < 256) : ∀ x ∈ zero_fill s, x < 256 := by
  intro x hx
  simp only [zero_fill, List.mem_append, List.mem_replicate] at hx
  rcases hx with h | ⟨_, h⟩
  · exact hs x h
  · omega

/-- The function `decode_base64` on the output of `encode_base64`: the input
filled up with zero bytes, then the terminator. -/
theorem decode_encode (s : List Nat) (hne : s ≠ []) (hs : ∀ x ∈ s, x < 256)
    (hlen : s.length < 2 ^ 60) :
    ∃ e, encode_base64 s = some e ∧ decode_base64 e = Decoded.buffer (zero_fill s ++ [0]) := by
  refine ⟨_, encode_base64_eq s hne hs, ?_⟩
  have hl := zero_fill_length s
  have hlen2 : s.length < 1152921504606846976 := by simpa using hlen
  exact decode_rfc4648 (zero_fill s) (by simp [zero_fill, hne]) (zero_fill_bytes s hs)
    (by
      have : (zero_fill s).length < 2305843009213693952 := by omega
      simpa using this)

theorem c_string_zero_fill (s : List Nat) (hs : ∀ x ∈ s, 0 < x) :
    c_string (zero_fill s ++ [0]) = s := by
  have h : ∀ (t : List Nat), (∀ x ∈ t, 0 < x) → ∀ (r : List Nat),
      c_string (t ++ 0 :: r) = t := by
    intro t
    induction t with
    | nil => intro _ r; simp [c_string]
    | cons a t ih =>
      intro ht r
      have ha : a ≠ 0 := Nat.pos_iff_ne_zero.mp (ht a (by simp))
      have := ih (fun x hx => ht x (by simp [hx])) r
      simp only [c_string] at this ⊢
      simp [List.takeWhile_cons, ha, this]
  unfold zero_fill
  rcases Nat.eq_zero_or_pos ((3 - s.length % 3) % 3) with h0 | h0
  · rw [h0]; simpa using h s hs []
  · obtain ⟨k, hk⟩ : ∃ k, (3 - s.length % 3) % 3 = k + 1 := ⟨_, (Nat.succ_pred_eq_of_pos h0).symm⟩
    rw [hk, List.replicate_succ, List.append_assoc]
    exact h s hs _

theorem zero_fill_starts (s : List Nat) : (s ++ [0]) <+: (zero_fill s ++ [0]) := by
  unfold zero_fill
  rcases Nat.eq_zero_or_pos ((3 - s.length % 3) % 3) with h0 | h0
  · rw [h0]; simp
  · obtain ⟨k, hk⟩ : ∃ k, (3 - s.length % 3) % 3 = k + 1 := ⟨_, (Nat.succ_pred_eq_of_pos h0).symm⟩
    rw [hk, List.replicate_succ]
    exact ⟨List.replicate k 0 ++ [0], by simp⟩

theorem padding_le_two (input : List Nat) : padding input ≤ 2 := by
  unfold padding
  split <;> split <;> omega

theorem rfc4648_no_pad (t : List Nat) (hl : t.length % 3 = 0) (ht : ∀ x ∈ t, x < 256) :
    PAD ∉ rfc4648_encode t := by
  induction t using rfc4648_encode.induct with
  | case1 => simp [rfc4648_encode]
  | case2 a => simp at hl
  | case3 a b => simp at hl
  | case4 a b c rest ih =>
    have hb : b < 256 := ht b (by simp)
    have hc : c < 256 := ht c (by simp)
    have hr : rest.length % 3 = 0 := by simp only [List.length_cons] at hl; omega
    have h1 := alphabet_ne_pad (a / 4) (by have := ht a (by simp); omega)
    have h2 := alphabet_ne_pad (a % 4 * 16 + b / 16) (by omega)
    have h3 := alphabet_ne_pad (b % 16 * 4 + c / 64) (by omega)
    have h4 := alphabet_ne_pad (c % 64) (by omega)
    have h5 := ih hr (fun x hx => ht x (by simp [hx]))
    simp only [rfc4648_encode, List.mem_cons, not_or]
    exact ⟨Ne.symm h1, Ne.symm h2, Ne.symm h3, Ne.symm h4, h5⟩

/-- The reference encoding on the test vectors of RFC 4648, section 10. -/
theorem rfc4648_test_vectors :
    rfc4648_encode (codes "f") = codes "Zg==" ∧
    rfc4648_encode (codes "fo") = codes "Zm8=" ∧
    rfc4648_encode (codes "foo") = codes "Zm9v" ∧
    rfc4648_encode (codes "foob") = codes "Zm9vYg==" ∧
    rfc4648_encode (codes "fooba") = codes "Zm9vYmE=" ∧
    rfc4648_encode (codes "foobar") = codes "Zm9vYmFy" := by
  decide

/-! ### Inputs that are not Base64 -/

theorem getD_lt_128 (input : List Nat) (h : ∀ c ∈ input, c < 128) (i : Nat) :
    input.getD i 0 < 128 := by
  rw [List.getD_eq_getElem?_getD]
  rcases Nat.lt_or_ge i input.length with hi | hi
  · rw [List.getElem?_eq_getElem hi]
    exact h _ (List.getElem_mem hi)
  · rw [List.getElem?_eq_none hi]
    decide

theorem sextet_defined (input : List Nat) (h : ∀ c ∈ input, c < 128) (i : Nat) :
    ∃ v, sextet input i = some v := by
  unfold sextet table_read
  split
  · exact ⟨0, rfl⟩
  · exact ⟨_, if_pos (getD_lt_128 input h i)⟩

theorem sextet_checked_defined (input : List Nat) (h : ∀ c ∈ input, c < 128) (i : Nat) :
    ∃ v, sextet_checked input i = some v := by
  unfold sextet_checked table_read
  split
  · exact ⟨_, if_pos (getD_lt_128 input h i)⟩
  · exact ⟨0, rfl⟩

theorem put_length (L : Nat) (output : List Nat) (b : Nat) (h : output.length ≤ L) :
    (put L output b).length = min (output.length + 1) L := by
  unfold put
  split
  · simp only [List.length_append, List.length_singleton]; omega
  · omega

theorem put_three_length (L : Nat) (output : List Nat) (x y z : Nat) (h : output.length ≤ L) :
    (put L (put L (put L output x) y) z).length = min (output.length + 3) L := by
  have h1 := put_length L output x h
  have h2 := put_length L (put L output x) y (by omega)
  have h3 := put_length L (put L (put L output x) y) z (by omega)
  omega

/-- On ASCII input the loop of `decode_base64` writes all `L` bytes of the
buffer, whatever the characters are, as long as `L` is at most three bytes for
every four characters still to read. -/
theorem decode_loop_defined (input : List Nat) (L : Nat) (h : ∀ c ∈ input, c < 128) :
    ∀ (bound i : Nat) (hb : input.length - i ≤ bound) (output : List Nat),
      output.length ≤ L → L ≤ output.length + 3 * ((input.length - i + 3) / 4) →
      ∃ buf, decode_loop input L bound i hb output = Decoded.buffer buf ∧
        buf.length = L + 1 := by
  intro bound
  induction bound with
  | zero =>
    intro i hb output h1 h2
    have : output.length = L := by omega
    exact ⟨output ++ [0], by simp [decode_loop, this], by simp [this]⟩
  | succ n ih =>
    intro i hb output h1 h2
    by_cases hi : i < input.length
    · obtain ⟨a, ha⟩ := sextet_defined input h i
      obtain ⟨b, hb2⟩ := sextet_defined input h (i + 1)
      obtain ⟨c, hc⟩ := sextet_checked_defined input h (i + 2)
      obtain ⟨d, hd⟩ := sextet_checked_defined input h (i + 3)
      rw [decode_loop_step input L n i hb output hi a b c d ha hb2 hc hd]
      apply ih
      · rw [put_three_length _ _ _ _ _ h1]; omega
      · rw [put_three_length _ _ _ _ _ h1]; omega
    · have : output.length = L := by omega
      rw [decode_loop_exit _ _ _ _ _ _ (by omega)]
      exact ⟨output ++ [0], by simp [this], by simp [this]⟩

/-- The subtraction in `output_len` goes below zero exactly on "=" and "==". -/
theorem output_len_wraps {input : List Nat} (hne : input ≠ []) :
    input.length * 3 / 4 < padding input ↔ input = [PAD] ∨ input = [PAD, PAD] := by
  match input, hne with
  | [c], _ =>
    by_cases hc : c = PAD <;> simp [padding, hc]
  | [c, d], _ =>
    by_cases hc : c = PAD <;> by_cases hd : d = PAD <;> simp [padding, hc, hd]
  | c :: d :: x :: rest, _ =>
    have hp := padding_le_two (c :: d :: x :: rest)
    simp only [List.length_cons] at hp ⊢
    constructor
    · intro h; omega
    · rintro (h | h) <;> simp at h

/-! ## The claims -/

/-- Claim C1, at the input where the code departs from it: encoding the two
bytes "hi" gives "aGkA", and decoding that gives `output_len = 3` bytes, "hi"
followed by a zero byte, not the two bytes that were encoded. -/
theorem round_trip_hi_gains_a_zero_byte :
    encode_base64 (codes "hi") = some (codes "aGkA") ∧
    output_len (codes "aGkA") = 3 ∧
    decode_base64 (codes "aGkA") = Decoded.buffer ([104, 105, 0] ++ [0]) ∧
    [104, 105, 0] ≠ codes "hi" := by
  decide

/-- Claim C2, at the input where the code departs from it: encoding the two
bytes "hi" (length 2 mod 3) gives "aGkA", which ends in no `=`, and not "aGk=". -/
theorem encode_hi_ends_without_pad :
    encode_base64 (codes "hi") = some (codes "aGkA") ∧
    codes "aGkA" ≠ codes "aGk=" ∧ PAD ∉ codes "aGkA" := by
  decide

/-- Claim C3: `decode_base64` inverts RFC 4648 Base64. For every non-empty byte
sequence `s` (short enough for `size_t` arithmetic on the length of its
encoding), decoding the RFC 4648 encoding of `s` returns a buffer holding
exactly the bytes of `s` and the terminator: `output_len` is the length of
`s`, so no byte is emitted for the padding. -/
theorem decode_inverts_rfc4648 (s : List Nat) (hne : s ≠ []) (hs : ∀ x ∈ s, x < 256)
    (hlen : s.length < 2 ^ 61) :
    decode_base64 (rfc4648_encode s) = Decoded.buffer (s ++ [0]) ∧
    output_len (rfc4648_encode s) = s.length :=
  ⟨decode_rfc4648 s hne hs hlen, output_len_rfc s hne hs hlen⟩

/-- Witness of C3: "hi" encodes to "aGk=" under RFC 4648 and `decode_base64`
gives back the two bytes "hi". -/
theorem decode_inverts_rfc4648_hi :
    rfc4648_encode (codes "hi") = codes "aGk=" ∧
    decode_base64 (rfc4648_encode (codes "hi")) = Decoded.buffer (codes "hi" ++ [0]) ∧
    output_len (rfc4648_encode (codes "hi")) = (codes "hi").length :=
  ⟨by decide, decode_inverts_rfc4648 (codes "hi") (by decide) (by decide) (by decide)⟩

/-- Claim C4: `encode_base64` returns `NULL` exactly on the empty input, and a
string for every input of at least one byte (so for 1 to 768 bytes). -/
theorem encode_fails_exactly_on_empty (s : List Nat) :
    (encode_base64 s = none ↔ s.length = 0) ∧
    ((encode_base64 s).isSome = true ↔ 1 ≤ s.length) := by
  unfold encode_base64
  by_cases h : s.length = 0
  · simp [h]
  · simp [h]; omega

/-- Claim C5: the reaction of `handle_tcp_client` to a frame received with a
positive byte count. Type 1: `decode_base64` is called and, whatever it
returns, exactly one frame of type 2 with content "ACK" is sent and the loop
goes on with the next receive. Type 3: nothing is sent, the loop is left and
the socket closed. Any other type: nothing is sent and the loop goes on. -/
theorem tcp_frame_reaction (ev : RecvEvent) (rest : List RecvEvent)
    (h : 0 < ev.bytes_received) :
    (ev.msg.type = 1 →
      sent_frames (tcp_iteration ev).1 = [{ type := 2, content := codes "ACK" }] ∧
      handle_tcp_client (ev :: rest) =
        Event.decoded ev.msg.content (decode_base64 ev.msg.content) ::
          Event.sent { type := 2, content := codes "ACK" } :: handle_tcp_client rest) ∧
    (ev.msg.type = 3 →
      sent_frames (tcp_iteration ev).1 = [] ∧
      handle_tcp_client (ev :: rest) = [Event.termination_requested, Event.closed]) ∧
    (ev.msg.type ≠ 1 → ev.msg.type ≠ 3 →
      sent_frames (tcp_iteration ev).1 = [] ∧
      handle_tcp_client (ev :: rest) = handle_tcp_client rest) := by
  have hn : ¬ ev.bytes_received ≤ 0 := by omega
  refine ⟨?_, ?_, ?_⟩
  · intro h1
    simp [handle_tcp_client, tcp_iteration, hn, h1, sent_frames, ack_msg]
  · intro h3
    simp [handle_tcp_client, tcp_iteration, hn, h3, sent_frames]
  · intro h1 h3
    simp [handle_tcp_client, tcp_iteration, hn, h1, h3, sent_frames]

/-- Witness of C5: a DATA frame whose content is empty, for which
`decode_base64` returns `NULL`, and one with content "aGk=" are each answered
with one ACK. -/
theorem tcp_frame_reaction_data :
    handle_tcp_client [⟨1028, ⟨1, []⟩⟩, ⟨1028, ⟨1, codes "aGk="⟩⟩] =
      [Event.decoded [] Decoded.null, Event.sent { type := 2, content := codes "ACK" },
       Event.decoded (codes "aGk=") (Decoded.buffer (codes "hi" ++ [0])),
       Event.sent { type := 2, content := codes "ACK" }] := by
  have h := (tcp_frame_reaction ⟨1028, ⟨1, []⟩⟩ [⟨1028, ⟨1, codes "aGk="⟩⟩] (by decide)).1 rfl
  rw [h.2]
  decide

/-- Counterexample to C6: a datagram of 9 bytes (type 1 and the string "aGk="),
not `sizeof(Message)` = 1028 bytes, is decoded and answered with an ACK. -/
theorem udp_short_datagram_is_handled :
    (9 : Int) ≠ sizeof_Message ∧
    decode_calls (handle_udp_message ⟨9, ⟨1, codes "aGk="⟩⟩) = [codes "aGk="] ∧
    sent_frames (handle_udp_message ⟨9, ⟨1, codes "aGk="⟩⟩) =
      [{ type := 2, content := codes "ACK" }] := by
  decide

/-- Claim C6 as amended: `handle_udp_message` drops a datagram, with a receive
failure logged, nothing decoded and no ACK sent, exactly when the received
byte count is `<= 0`; with any positive byte count, equal to `sizeof(Message)`
or not, a frame of type 1 is decoded and answered with one ACK and a frame of
another type is answered with nothing. -/
theorem udp_receive_check (ev : RecvEvent) :
    (ev.bytes_received ≤ 0 →
      handle_udp_message ev = [Event.recv_failed] ∧
      decode_calls (handle_udp_message ev) = [] ∧ sent_frames (handle_udp_message ev) = []) ∧
    (0 < ev.bytes_received → ev.msg.type = 1 →
      handle_udp_message ev =
        [Event.decoded ev.msg.content (decode_base64 ev.msg.content),
         Event.sent { type := 2, content := codes "ACK" }]) ∧
    (0 < ev.bytes_received → ev.msg.type ≠ 1 → handle_udp_message ev = []) := by
  refine ⟨?_, ?_, ?_⟩
  · intro h
    simp [handle_udp_message, h, decode_calls, sent_frames]
  · intro h h1
    have hn : ¬ ev.bytes_received ≤ 0 := by omega
    simp [handle_udp_message, hn, h1, ack_msg]
  · intro h h1
    have hn : ¬ ev.bytes_received ≤ 0 := by omega
    simp [handle_udp_message, hn, h1]

/-- Witness of C6 as amended: a receive that returned -1 is dropped, and a
datagram of 9 bytes carrying a DATA frame is decoded and acknowledged. -/
theorem udp_receive_check_examples :
    handle_udp_message ⟨-1, ⟨1, codes "aGk="⟩⟩ = [Event.recv_failed] ∧
    handle_udp_message ⟨9, ⟨1, codes "aGk="⟩⟩ =
      [Event.decoded (codes "aGk=") (decode_base64 (codes "aGk=")),
       Event.sent { type := 2, content := codes "ACK" }] :=
  ⟨((udp_receive_check ⟨-1, ⟨1, codes "aGk="⟩⟩).1 (by decide)).1,
   (udp_receive_check ⟨9, ⟨1, codes "aGk="⟩⟩).2.1 (by decide) rfl⟩

/-- Claim C7, at an input where the code departs from it: a line of 766
characters `a`, which with its newline fits the `MAX_INPUT_LEN - 1` characters
`fgets` reads, is encoded to 1024 characters, one more than the 1023 that the
content buffer holds before its terminator, and the frame `send_message` builds
holds only the first 1023 of them. -/
theorem frame_truncates_766_bytes :
    (List.replicate 766 97).length + 1 < MAX_INPUT_LEN ∧
    ∃ e, encode_base64 (List.replicate 766 97) = some e ∧ e.length = 1024 ∧
      (send_message e 1).content = e.take 1023 ∧
      (send_message e 1).content.length = 1023 ∧ (send_message e 1).content ≠ e := by
  obtain ⟨e, he, hl⟩ := encode_length (List.replicate 766 97)
    (by
      intro h
      have hlen := congrArg List.length h
      rw [List.length_replicate] at hlen
      exact absurd hlen (by decide))
    (by intro x hx; rw [(List.mem_replicate.mp hx).2]; omega)
  have hl2 : e.length = 1024 := by rw [hl, List.length_replicate]
  have hc : (send_message e 1).content = e.take 1023 := rfl
  have hcl : (send_message e 1).content.length = 1023 := by
    rw [hc, List.length_take, hl2]; rfl
  refine ⟨by rw [List.length_replicate]; decide, e, he, hl2, hc, hcl, ?_⟩
  intro heq
  rw [heq, hl2] at hcl
  omega

/-- Claim C8: the pass of the client loop after a DATA frame was sent. When the
receive returned a positive count and the frame has type 2 the session goes on
with the next line (READY); in every other case it goes on with the next line
under UDP, and under TCP it leaves the loop and closes the socket. -/
theorem client_after_send (is_tcp : Bool) (input e : List Nat) (lines : List (List Nat))
    (ev : RecvEvent) (recvs : List RecvEvent)
    (hq : input ≠ quit) (he : encode_base64 input = some e) :
    (0 < ev.bytes_received ∧ ev.msg.type = 2 →
      Client.main is_tcp (input :: lines) (ev :: recvs) =
        Event.sent (send_message e 1) :: Event.ack_received :: Client.main is_tcp lines recvs) ∧
    (¬ (0 < ev.bytes_received ∧ ev.msg.type = 2) → is_tcp = false →
      Client.main is_tcp (input :: lines) (ev :: recvs) =
        Event.sent (send_message e 1) :: Event.ack_failed :: Client.main is_tcp lines recvs) ∧
    (¬ (0 < ev.bytes_received ∧ ev.msg.type = 2) → is_tcp = true →
      Client.main is_tcp (input :: lines) (ev :: recvs) =
        [Event.sent (send_message e 1), Event.ack_failed, Event.closed]) := by
  refine ⟨?_, ?_, ?_⟩
  · rintro ⟨h1, h2⟩
    have hn : ¬ ev.bytes_received ≤ 0 := by omega
    cases is_tcp <;> simp [Client.main, hq, he, await_ack, receive_ack, hn, h2]
  · intro h ht
    subst ht
    by_cases h1 : ev.bytes_received ≤ 0
    · simp [Client.main, hq, he, await_ack, receive_ack, h1]
    · have h2 : ev.msg.type ≠ 2 := fun h2 => h ⟨by omega, h2⟩
      simp [Client.main, hq, he, await_ack, receive_ack, h1, h2]
  · intro h ht
    subst ht
    by_cases h1 : ev.bytes_received ≤ 0
    · simp [Client.main, hq, he, await_ack, receive_ack, h1]
    · have h2 : ev.msg.type ≠ 2 := fun h2 => h ⟨by omega, h2⟩
      simp [Client.main, hq, he, await_ack, receive_ack, h1, h2]

/-- Witness of C8: after "hi" was sent over TCP, an ACK frame lets the session
read the next line, and a frame of type 1 ends it with the socket closed. -/
theorem client_after_send_tcp :
    Client.main true [codes "hi", codes "hi"] [⟨1028, ⟨2, codes "ACK"⟩⟩, ⟨1028, ⟨1, []⟩⟩] =
      [Event.sent ⟨1, codes "aGkA"⟩, Event.ack_received,
       Event.sent ⟨1, codes "aGkA"⟩, Event.ack_failed, Event.closed] := by
  have h := (client_after_send true (codes "hi") (codes "aGkA") [codes "hi"]
    ⟨1028, ⟨2, codes "ACK"⟩⟩ [⟨1028, ⟨1, []⟩⟩] (by decide) (by decide)).1 (by decide)
  rw [h]
  decide

/-- Claim C9: the text-level round trip. For every byte sequence `s` of 1 to
765 bytes, none of them zero, `encode_base64` returns a string that the DATA
frame holds whole, and `decode_base64` of it returns a buffer that starts with
the bytes of `s` followed by a zero byte, so that read as a null-terminated
string the buffer is `s`. -/
theorem text_round_trip (s : List Nat) (h1 : 1 ≤ s.length) (h2 : s.length ≤ 765)
    (hs : ∀ x ∈ s, 0 < x ∧ x < 256) :
    ∃ e buf, encode_base64 s = some e ∧ (send_message e 1).content = e ∧
      decode_base64 e = Decoded.buffer buf ∧ (s ++ [0]) <+: buf ∧ c_string buf = s := by
  have hne : s ≠ [] := by intro h; rw [h] at h1; simp at h1
  obtain ⟨e, he, hd⟩ := decode_encode s hne (fun x hx => (hs x hx).2)
    (by
      have : s.length < 1152921504606846976 := by omega
      simpa using this)
  obtain ⟨e2, he2, hl⟩ := encode_length s hne (fun x hx => (hs x hx).2)
  have hee : e2 = e := Option.some.inj (he2.symm.trans he)
  subst hee
  refine ⟨e2, zero_fill s ++ [0], he, ?_, hd, zero_fill_starts s,
    c_string_zero_fill s (fun x hx => (hs x hx).1)⟩
  show e2.take (MSG_LEN - 1) = e2
  exact List.take_of_length_le (by rw [hl]; simp only [MSG_LEN]; omega)

/-- Witness of C9: the text "hi". -/
theorem text_round_trip_hi :
    ∃ e buf, encode_base64 (codes "hi") = some e ∧ (send_message e 1).content = e ∧
      decode_base64 e = Decoded.buffer buf ∧ (codes "hi" ++ [0]) <+: buf ∧
      c_string buf = codes "hi" :=
  text_round_trip (codes "hi") (by decide) (by decide) (by decide)

/-- Claim C10: the arithmetic of `output_len` on an arbitrary non-empty string
(one that fits in memory, so that tripling its length does not overflow). The
subtraction wraps around, `3n/4 < padding`, exactly for "=" and "==", where
`output_len` comes out as `2^64 - 1`; for every other string `output_len` is
`3n/4 - padding` as a natural number. -/
theorem output_len_wraps_iff (input : List Nat) (hne : input ≠ [])
    (hfit : input.length * 3 < 2 ^ 64) :
    (input.length * 3 / 4 < padding input ↔ input = [PAD] ∨ input = [PAD, PAD]) ∧
    (input = [PAD] ∨ input = [PAD, PAD] → output_len input = 2 ^ 64 - 1) ∧
    (¬ (input = [PAD] ∨ input = [PAD, PAD]) →
      output_len input = input.length * 3 / 4 - padding input) := by
  have hfit2 : input.length * 3 < 18446744073709551616 := by simpa using hfit
  have hw : input = [PAD] ∨ input = [PAD, PAD] → output_len input = 2 ^ 64 - 1 := by
    rintro (h | h) <;> subst h <;> decide
  have hiff := output_len_wraps hne
  refine ⟨hiff, hw, ?_⟩
  intro hnot
  have hge : padding input ≤ input.length * 3 / 4 := by
    rcases Nat.lt_or_ge (input.length * 3 / 4) (padding input) with h | h
    · exact absurd (hiff.mp h) hnot
    · exact h
  unfold output_len
  rw [size_t_of_nat _ hfit2, size_t_sub _ _ hge (by omega)]

/-- Witness of C10: "aGk=" has `output_len` 2, and "=" is one of the two strings
on which the subtraction wraps. -/
theorem output_len_wraps_iff_examples :
    output_len (codes "aGk=") = 2 ∧ output_len (codes "=") = 2 ^ 64 - 1 :=
  ⟨(output_len_wraps_iff (codes "aGk=") (by decide) (by decide)).2.2 (by decide),
   (output_len_wraps_iff (codes "=") (by decide) (by decide)).2.1 (by decide)⟩

/-! ## Further properties of the code -/

/-- The output of `encode_base64` never holds the character `=`: for every
non-empty byte sequence it is `4 * ceil(n / 3)` characters of the alphabet, the
unread octets of the last group encoded as if they were zero bytes. -/
theorem encode_never_pads (s : List Nat) (hne : s ≠ []) (hs : ∀ x ∈ s, x < 256) :
    ∃ e, encode_base64 s = some e ∧ e = rfc4648_encode (zero_fill s) ∧
      e.length = 4 * ((s.length + 2) / 3) ∧ PAD ∉ e := by
  refine ⟨_, encode_base64_eq s hne hs, rfl, ?_, ?_⟩
  · rw [rfc4648_length, zero_fill_length]; omega
  · exact rfc4648_no_pad _ (by rw [zero_fill_length]; omega) (zero_fill_bytes s hs)

/-- Witness of `encode_never_pads`: the single byte "f". -/
theorem encode_never_pads_f :
    ∃ e, encode_base64 (codes "f") = some e ∧ e = rfc4648_encode (zero_fill (codes "f")) ∧
      e.length = 4 * (((codes "f").length + 2) / 3) ∧ PAD ∉ e :=
  encode_never_pads (codes "f") (by decide) (by decide)

/-- What the round trip gives: for every byte sequence of 1 to 768 bytes,
`decode_base64` of the output of `encode_base64` returns the input followed by
the zero bytes that fill its last group of three, then the terminator. It is
the input itself exactly when the length is a multiple of three. -/
theorem round_trip_zero_filled (s : List Nat) (h1 : 1 ≤ s.length) (h2 : s.length ≤ 768)
    (hs : ∀ x ∈ s, x < 256) :
    ∃ e, encode_base64 s = some e ∧
      decode_base64 e =
        Decoded.buffer (s ++ List.replicate ((3 - s.length % 3) % 3) 0 ++ [0]) := by
  have hne : s ≠ [] := by intro h; rw [h] at h1; simp at h1
  exact decode_encode s hne hs (by
    have : s.length < 1152921504606846976 := by omega
    simpa using this)

/-- Witness of `round_trip_zero_filled`: the text "foo", returned as it is. -/
theorem round_trip_zero_filled_foo :
    ∃ e, encode_base64 (codes "foo") = some e ∧
      decode_base64 e = Decoded.buffer (codes "foo" ++ List.replicate 0 0 ++ [0]) :=
  round_trip_zero_filled (codes "foo") (by decide) (by decide) (by decide)

/-- The line "quit" ends the client session: over TCP one frame of type 3 with
content "TERMINATE" is sent before the socket is closed, over UDP no frame is. -/
theorem client_quit (is_tcp : Bool) (lines : List (List Nat)) (recvs : List RecvEvent) :
    Client.main is_tcp (codes "quit" :: lines) recvs =
      if is_tcp then [Event.sent { type := 3, content := codes "TERMINATE" }, Event.closed]
      else [Event.closed] := by
  cases is_tcp
  · simp [Client.main, quit]
  · simp [Client.main, quit, send_message, TERMINATE, MSG_LEN]
    decide

/-- An empty line is an encode failure: no frame is sent and the session reads
the next line, with the receive events untouched. -/
theorem client_empty_line (is_tcp : Bool) (lines : List (List Nat)) (recvs : List RecvEvent) :
    Client.main is_tcp ([] :: lines) recvs =
      Event.encode_failed :: Client.main is_tcp lines recvs := by
  have hq : ([] : List Nat) ≠ quit := by decide
  simp [Client.main, hq, encode_base64]


/-- Malformed input is not reported: for every non-empty string of ASCII bytes
other than "=" and "==", Base64 or not, `decode_base64` returns a buffer of
`output_len + 1` bytes, never `NULL`. -/
theorem decode_returns_a_buffer (input : List Nat) (hne : input ≠ [])
    (hascii : ∀ c ∈ input, c < 128) (hnw : ¬ (input = [PAD] ∨ input = [PAD, PAD]))
    (hfit : input.length * 3 < 2 ^ 64) :
    ∃ buf, decode_base64 input = Decoded.buffer buf ∧ buf.length = output_len input + 1 := by
  have hpos : 0 < input.length := List.length_pos.mpr hne
  have hfit2 : input.length * 3 < 18446744073709551616 := by simpa using hfit
  have hp : padding input ≤ input.length * 3 / 4 := by
    rcases Nat.lt_or_ge (input.length * 3 / 4) (padding input) with h | h
    · exact absurd ((output_len_wraps hne).mp h) hnw
    · exact h
  have hL : output_len input = input.length * 3 / 4 - padding input := by
    unfold output_len
    rw [size_t_of_nat _ hfit2, size_t_sub _ _ hp (by omega)]
  unfold decode_base64
  rw [if_neg (by omega)]
  exact decode_loop_defined input (output_len input) hascii _ 0 _ []
    (by simp) (by rw [hL]; simp only [List.length_nil]; omega)

/-- Witness of `decode_returns_a_buffer`: the three characters "abc", which are
not a Base64 text, are decoded to a buffer of `output_len + 1 = 3` bytes. -/
theorem decode_returns_a_buffer_abc :
    ∃ buf, decode_base64 (codes "abc") = Decoded.buffer buf ∧
      buf.length = output_len (codes "abc") + 1 :=
  decode_returns_a_buffer (codes "abc") (by decide) (by decide) (by decide) (by decide)

end Base64Comm
